import Mathlib

/-!
Shallow embedding of the market-driven two-voice invention engine
(`main.py`): price simulation, price-to-pitch quantization, scale and
chord constrained voice selection, anti-stagnation correction and the
16-sub-step bundle generator, together with the HTTP configuration
update handler.  Python floats are modelled as rationals, the single
`random.Random` instance owned by the engine is modelled as an oracle
supplying a stream of values for the market-path draws (`random`,
`uniform`) and a stream for the musical draws (`randint`, `choice`);
every draw is clamped into the range documented for the corresponding
primitive.  All definitions are executable.
-/

/- Batteries marks the rational operations irreducible, which blocks
evaluation of concrete run traces inside `decide`; restore the default
reducibility locally. -/
attribute [local semireducible] Rat.add Rat.mul Rat.sub Rat.inv Rat.ofScientific

/-- Clamp a rational into the unit interval; oracle draws pass through
this so that a modelled `random()` value is always in range. -/
def clamp01 (u : ℚ) : ℚ := max 0 (min 1 u)

/-- Oracle model of the state of the engine-owned `random.Random`
instance: a stream of unit-interval values for the market-path draws
and a stream for the musical-choice draws, each with a cursor. -/
structure RngT where
  mkt : ℕ → ℚ
  mus : ℕ → ℚ
  mkt_pos : ℕ
  mus_pos : ℕ

/-- Consume one market-path draw. -/
def drawMkt (r : RngT) : ℚ × RngT :=
  (clamp01 (r.mkt r.mkt_pos), { r with mkt_pos := r.mkt_pos + 1 })

/-- Consume one musical-choice draw. -/
def drawMus (r : RngT) : ℚ × RngT :=
  (clamp01 (r.mus r.mus_pos), { r with mus_pos := r.mus_pos + 1 })

/-- Model of `rng.random()`: one draw in the unit interval. -/
def randomD (r : RngT) : ℚ × RngT := drawMkt r

/-- Model of `rng.uniform(a, b)`: `a + (b - a) * u` for a unit draw `u`,
hence a value between `a` and `b` whenever `a ≤ b`. -/
def uniformD (a b : ℚ) (r : RngT) : ℚ × RngT :=
  let d := drawMkt r
  (a + (b - a) * d.1, d.2)

/-- Model of `rng.randint(a, b)`: an integer in `[a, b]` derived from one
musical draw. -/
def randintD (a b : ℤ) (r : RngT) : ℤ × RngT :=
  let d := drawMus r
  (a + min (b - a) ⌊((b : ℚ) - (a : ℚ) + 1) * d.1⌋, d.2)

/-- Model of `rng.choice(xs)`: pick the element whose index is derived
from one musical draw. -/
def choiceD (xs : List ℤ) (r : RngT) : ℤ × RngT :=
  let d := drawMus r
  (xs.getD (min (xs.length - 1) (Int.toNat ⌊(xs.length : ℚ) * d.1⌋)) 0, d.2)

/-- First element of the list minimising the key, mirroring Python
`min(xs, key=f)` including its leftmost tie-breaking; `none` on the
empty list (where Python would raise). -/
def minByKey {α β : Type} [LinearOrder β] (f : α → β) : List α → Option α
  | [] => none
  | x :: xs => some (xs.foldl (fun best a => if f a < f best then a else best) x)

/-- Integer range `[lo, hi]` inclusive, mirroring Python
`range(lo, hi + 1)` enumeration order. -/
def intRange (lo hi : ℤ) : List ℤ :=
  (List.range (hi + 1 - lo).toNat).map (fun k => lo + (k : ℤ))

/-- Insertion of an integer into a sorted list, for the model of Python
`sorted`. -/
def insertSorted (x : ℤ) : List ℤ → List ℤ
  | [] => [x]
  | y :: ys => if x ≤ y then x :: y :: ys else y :: insertSorted x ys

/-- Model of Python `sorted` on integer lists. -/
def sortInts (xs : List ℤ) : List ℤ := xs.foldr insertSorted []

/-- Model of Python 3 `round` on an exact rational: round half to even. -/
def roundHalfEven (q : ℚ) : ℤ :=
  let f := ⌊q⌋
  let r := q - (f : ℚ)
  if r < 1/2 then f
  else if 1/2 < r then f + 1
  else if f % 2 = 0 then f else f + 1

/-- Model of `round(x, 4)`. -/
def roundTo4 (q : ℚ) : ℚ := (roundHalfEven (q * 10000) : ℚ) / 10000

/-- Model of `round(x, 2)`. -/
def roundTo2 (q : ℚ) : ℚ := (roundHalfEven (q * 100) : ℚ) / 100

/-- Index (into `pool`) of the element nearest to `x`, mirroring
`min(range(len(pool)), key=lambda i: abs(pool[i] - x))`. -/
def nearest_index (pool : List ℤ) (x : ℤ) : ℕ :=
  (minByKey (fun i => ((pool.getD i 0) - x).natAbs) (List.range pool.length)).getD 0

namespace VoiceLeading

/-- Candidate pitches of the `VoiceLeading` helper: range members whose
offset from the root is congruent to a chord tone mod 12. -/
def candidates (root_midi : ℤ) (chord_tones : List ℤ) (min_midi max_midi : ℤ) : List ℤ :=
  (intRange min_midi max_midi).filter
    (fun midi => (chord_tones.map (fun t => t % 12)).contains ((midi - root_midi) % 12))

/-- Embeds `VoiceLeading.pick`. -/
def pick (root_midi : ℤ) (prev_note : Option ℤ) (chord_tones : List ℤ)
    (min_midi max_midi : ℤ) : ℤ :=
  let cs := candidates root_midi chord_tones min_midi max_midi
  if cs = [] then prev_note.getD min_midi
  else
    match prev_note with
    | none => cs.getD (cs.length / 2) 0
    | some p => (minByKey (fun note => (note - p).natAbs) cs).getD 0

/-- Candidates of the pitch-class pickers: range members with the given
pitch class. -/
def pc_candidates (pitch_class : ℤ) (min_midi max_midi : ℤ) : List ℤ :=
  (intRange min_midi max_midi).filter (fun midi => midi % 12 == pitch_class)

/-- Embeds `VoiceLeading.pick_pitch_class`. -/
def pick_pitch_class (prev_note : Option ℤ) (pitch_class : ℤ)
    (min_midi max_midi : ℤ) : ℤ :=
  let cs := pc_candidates pitch_class min_midi max_midi
  if cs = [] then prev_note.getD min_midi
  else
    match prev_note with
    | none => cs.getD (cs.length / 2) 0
    | some p => (minByKey (fun note => (note - p).natAbs) cs).getD 0

/-- Embeds `VoiceLeading.pick_near_target`. -/
def pick_near_target (prev_note : Option ℤ) (pitch_class : ℤ) (target_midi : ℤ)
    (min_midi max_midi : ℤ) : ℤ :=
  let cs := pc_candidates pitch_class min_midi max_midi
  if cs = [] then prev_note.getD target_midi
  else
    match prev_note with
    | none => (minByKey (fun note => (note - target_midi).natAbs) cs).getD 0
    | some p =>
      (minByKey
        (fun note => ((note - target_midi).natAbs : ℚ) + (1/2) * ((note - p).natAbs : ℚ))
        cs).getD 0

end VoiceLeading

/-- Embeds `HarmonicClock.tick`: advance the modulo-16 step. -/
def harmonic_tick (step : ℕ) : ℕ := (step + 1) % 16

/-- Engine state: the mutable attributes set up by
`InventionEngine.__init__` (the clock step and the voice-leading root
are inlined; the chord tables are constants, defined below). -/
structure Engine where
  clock : ℕ := 0
  prev_soprano : Option ℤ := some 72
  prev_bass : Option ℤ := some 48
  root_offset : ℤ := 0
  tick_count : ℕ := 0
  sub_steps : ℕ := 16
  arpeggio_pattern : List ℤ := [0, 2, 4, 2, 7, 4, 2, 0, 0, 2, 4, 2, 7, 4, 2, 0]
  qqq_open : ℚ := 430
  spy_open : ℚ := 510
  qqq_price : ℚ := 430
  spy_price : ℚ := 510
  base_qqq_step_pct : ℚ := 3/2000
  base_spy_step_pct : ℚ := 1/1000
  sensitivity : ℚ := 1
  qqq_step_pct : ℚ := 3/2000
  spy_step_pct : ℚ := 1/1000
  price_noise_multiplier : ℚ := 1
  max_root_offset : ℤ := 0
  last_degree : ℤ := 1
  root_degree_index : ℤ := 0
  lock_regime : String := "MAJOR"
  enable_root_offset_motion : Bool := false
  fixed_root_midi : ℤ := 60
  soprano_repeat_count : ℕ := 0
  melody_pattern : List ℤ := [0, 1, 0, 2, 0, 1, 0, -1, 0, 2, 0, 1, 0, -1, 0, 1]
  melody_phase : ℕ := 0
  stuck_limit : ℕ := 8
  prev_soprano_base : Option ℤ := none
  soprano_rhythm : ℕ := 16
  deriving DecidableEq, Repr

/-- The freshly constructed engine. -/
def engineInit : Engine := {}

/-- Embeds the `SCALES` lookup `SCALES.get(regime, SCALES[MAJOR])`. -/
def scales_get (regime : String) : List ℤ :=
  if regime = "MINOR" then [0, 2, 3, 5, 7, 8, 10] else [0, 2, 4, 5, 7, 9, 11]

/-- Embeds the per-regime 16-entry `chord_progressions` table. -/
def chord_progression (regime : String) : List ℤ :=
  if regime = "MAJOR" then [1, 1, 4, 4, 2, 2, 5, 5, 6, 6, 4, 4, 5, 5, 1, 1]
  else if regime = "MINOR" then [1, 1, 4, 4, 6, 6, 2, 2, 3, 3, 7, 7, 5, 5, 1, 1]
  else []

/-- Embeds the `chord_map` degree-to-chord-tones table. -/
def chord_map (degree : ℤ) : List ℤ :=
  if degree = 1 then [0, 4, 7]
  else if degree = 2 then [2, 5, 9]
  else if degree = 3 then [4, 7, 11]
  else if degree = 4 then [5, 9, 12]
  else if degree = 5 then [7, 11, 14]
  else if degree = 6 then [9, 12, 16]
  else if degree = 7 then [11, 14, 17]
  else []

/-- Embeds `_current_regime`; a nonempty `lock_regime` string is truthy
in Python and wins over the clock-threshold placeholder. -/
def current_regime (e : Engine) : String :=
  if e.lock_regime ≠ "" then e.lock_regime
  else if e.clock < 8 then "MAJOR" else "MINOR"

/-- Embeds `_check_divergence`. -/
def check_divergence (soprano_note bass_note : ℤ) : Bool :=
  let interval := (soprano_note - bass_note).natAbs % 12
  interval == 1 || interval == 6 || interval == 11

/-- Embeds `_next_price`: uniform noise scaled by the noise multiplier,
plus drift, floored at `0.01`. -/
def next_price (price_noise_multiplier current step drift : ℚ) (rng : RngT) : ℚ × RngT :=
  let noise_step := step * price_noise_multiplier
  let d := uniformD (-noise_step) noise_step rng
  (max (1/100) (current + d.1 + drift), d.2)

/-- Embeds `_price_to_midi`: trend-aware rounding of the raw semitone
offset implied by the percentage deviation of `price` from
`open_price`. -/
def price_to_midi (price open_price : ℚ) (base_midi : ℤ) (step_pct : ℚ)
    (prev_price : Option ℚ) : ℤ :=
  let delta_pct := (price - open_price) / open_price
  let raw_semitones := delta_pct / step_pct
  let semitones : ℤ :=
    match prev_price with
    | some pp =>
      if pp < price then ⌈raw_semitones⌉
      else if price < pp then ⌊raw_semitones⌋
      else roundHalfEven raw_semitones
    | none => roundHalfEven raw_semitones
  base_midi + semitones

/-- Embeds `_get_scale_notes`. -/
def get_scale_notes (regime : String) (root_midi lo hi : ℤ) : List ℤ :=
  (intRange lo hi).filter
    (fun midi => (scales_get regime).contains ((midi - root_midi) % 12))

/-- Embeds `_nearest_scale_note`. -/
def nearest_scale_note (target_midi : ℤ) (scale_pool : List ℤ) : ℤ :=
  if scale_pool = [] then target_midi
  else (minByKey (fun note => (note - target_midi).natAbs) scale_pool).getD target_midi

/-- Embeds `_nearest_scale_note_above`. -/
def nearest_scale_note_above (target_midi : ℤ) (scale_pool : List ℤ) : Option ℤ :=
  minByKey (fun note => (note - target_midi).natAbs)
    (scale_pool.filter (fun note => decide (target_midi ≤ note)))

/-- Embeds `_offset_scale_degree`. -/
def offset_scale_degree (note : ℤ) (scale_pool : List ℤ) (offset : ℤ) : ℤ :=
  if scale_pool = [] then note
  else
    let pool := sortInts scale_pool
    let index := nearest_index pool note
    let next_index := max 0 (min ((pool.length : ℤ) - 1) ((index : ℤ) + offset))
    pool.getD next_index.toNat 0

/-- Embeds `_escape_stuck`. -/
def escape_stuck (note : ℤ) (scale_pool : List ℤ) (direction : ℤ) : ℤ :=
  offset_scale_degree note scale_pool (2 * direction)

/-- Embeds `_pick_scale_step`; the call sites guard non-emptiness of the
window, so the `getD` default is never exercised. -/
def pick_scale_step (prev_note : Option ℤ) (target_midi : ℤ) (scale_pool : List ℤ)
    (max_degree_step : ℤ) (repeat_penalty : ℚ) : ℤ :=
  if scale_pool = [] then prev_note.getD target_midi
  else
    let pool := sortInts scale_pool
    match prev_note with
    | none => (minByKey (fun note => (note - target_midi).natAbs) pool).getD target_midi
    | some prev =>
      let prev_index := nearest_index pool prev
      let lo := max 0 ((prev_index : ℤ) - max_degree_step)
      let hi := min ((pool.length : ℤ) - 1) ((prev_index : ℤ) + max_degree_step)
      let window := (pool.drop lo.toNat).take (hi + 1 - lo).toNat
      (minByKey
        (fun note => ((note - target_midi).natAbs : ℚ) + (if note = prev then repeat_penalty else 0))
        window).getD prev

/-- Embeds `_enforce_stepwise_motion` (the candidate is always an
integer at the call sites, so the Python `candidate is None` guard is
typed away). -/
def enforce_stepwise_motion (prev_note : Option ℤ) (candidate : ℤ)
    (scale_pool : List ℤ) (min_move : ℤ) : ℤ :=
  match prev_note with
  | none => candidate
  | some prev =>
    if min_move ≤ |candidate - prev| then candidate
    else
      let direction : ℤ := if prev ≤ candidate then 1 else -1
      let pool := sortInts scale_pool
      if pool = [] then candidate
      else if 0 < direction then
        match pool.filter (fun note => decide (prev < note)) with
        | [] => candidate
        | h :: _ => h
      else
        match (pool.filter (fun note => decide (note < prev))).getLast? with
        | none => candidate
        | some l => l

/-- Embeds `_step_toward_target`. -/
def step_toward_target (prev_note : Option ℤ) (target_midi : ℤ)
    (scale_pool : List ℤ) (step_degrees : ℤ) : Option ℤ :=
  match prev_note with
  | none => none
  | some prev =>
    if scale_pool = [] then none
    else
      let pool := sortInts scale_pool
      let prev_index := nearest_index pool prev
      let direction : ℤ := if prev ≤ target_midi then 1 else -1
      let next_index := max 0 (min ((pool.length : ℤ) - 1) ((prev_index : ℤ) + step_degrees * direction))
      some (pool.getD next_index.toNat 0)

/-- Embeds `_select_chord_degree` (defined by the source but not invoked
by the bundle generator). -/
def select_chord_degree (e : Engine) (regime : String) : ℤ × Engine :=
  let base_degree := (chord_progression regime).getD e.clock 0
  (base_degree, { e with last_degree := base_degree })

/-- Embeds `_advance_root_offset`. -/
def advance_root_offset (e : Engine) (regime : String) (rng : RngT) : Engine × RngT :=
  if ¬ e.enable_root_offset_motion then (e, rng)
  else
    let scale_degrees := scales_get regime
    if scale_degrees = [] then (e, rng)
    else
      let c := choiceD [-1, 1] rng
      let idx := (e.root_degree_index + c.1) % (scale_degrees.length : ℤ)
      let ro := scale_degrees.getD idx.toNat 0
      let ro2 := max (-e.max_root_offset) (min ro e.max_root_offset)
      ({ e with root_degree_index := idx, root_offset := ro2 }, c.2)

/-- Embeds `set_sensitivity`. -/
def set_sensitivity (e : Engine) (multiplier : ℚ) : Engine :=
  let safe_multiplier := max (1/10) (min multiplier 10)
  { e with sensitivity := safe_multiplier,
           qqq_step_pct := e.base_qqq_step_pct / safe_multiplier,
           spy_step_pct := e.base_spy_step_pct / safe_multiplier }

/-- Embeds `set_price_noise`. -/
def set_price_noise (e : Engine) (multiplier : ℚ) : Engine :=
  { e with price_noise_multiplier := max (1/10) (min multiplier 5) }

/-- Embeds `set_soprano_rhythm`. -/
def set_soprano_rhythm (e : Engine) (rhythm : ℤ) : Engine :=
  if rhythm = 4 ∨ rhythm = 8 ∨ rhythm = 16 then { e with soprano_rhythm := rhythm.toNat }
  else e

/-- Dynamic-range centre of the soprano window, from the tick-start
price (`initial_qqq_anchor` clamped into `[54, 96]`). -/
def soprano_center_of (e : Engine) : ℤ :=
  max 54 (min 96 (price_to_midi e.qqq_price e.qqq_open 72 e.qqq_step_pct none))

/-- Lower bound of the soprano window. -/
def soprano_min_of (e : Engine) : ℤ := max 36 (soprano_center_of e - 12)

/-- Upper bound of the soprano window. -/
def soprano_max_of (e : Engine) : ℤ := min 108 (soprano_center_of e + 12)

/-- Scale-legal soprano pool for the tick. -/
def soprano_pool_of (e : Engine) : List ℤ :=
  get_scale_notes (current_regime e) e.fixed_root_midi (soprano_min_of e) (soprano_max_of e)

/-- Dynamic-range centre of the bass window (`initial_spy_anchor`
clamped into `[36, 60]`). -/
def bass_center_of (e : Engine) : ℤ :=
  max 36 (min 60 (price_to_midi e.spy_price e.spy_open 48 e.spy_step_pct none))

/-- Lower bound of the bass window. -/
def bass_min_of (e : Engine) : ℤ := max 24 (bass_center_of e - 10)

/-- Upper bound of the bass window. -/
def bass_max_of (e : Engine) : ℤ := min 72 (bass_center_of e + 10)

/-- Scale-legal bass pool for the tick. -/
def bass_pool_of (e : Engine) : List ℤ :=
  get_scale_notes (current_regime e) e.fixed_root_midi (bass_min_of e) (bass_max_of e)

/-- Per-tick context of the sub-step loop: the values fixed before the
loop of `generate_one_second_bundle` starts (chord degree hardcoded to
`1` by the source, line `chord_degree = 1`). -/
structure Ctx where
  regime : String
  root_midi : ℤ
  chord_tone_mods : List ℤ
  sub_steps : ℕ
  soprano_rhythm : ℕ
  sensitivity : ℚ
  stuck_limit : ℕ
  qqq_open : ℚ
  spy_open : ℚ
  qqq_step_pct : ℚ
  spy_step_pct : ℚ
  start_qqq : ℚ
  start_spy : ℚ
  end_qqq : ℚ
  end_spy : ℚ
  soprano_pool : List ℤ
  bass_pool : List ℤ
  soprano_center : ℤ
  bass_center : ℤ
  deriving Repr

/-- Build the tick context from the engine state holding the tick-start
prices and the freshly drawn tick-end prices. -/
def mk_ctx (e : Engine) (end_qqq end_spy : ℚ) : Ctx :=
  { regime := current_regime e
    root_midi := e.fixed_root_midi
    chord_tone_mods := (chord_map 1).map (fun t => t % 12)
    sub_steps := e.sub_steps
    soprano_rhythm := e.soprano_rhythm
    sensitivity := e.sensitivity
    stuck_limit := e.stuck_limit
    qqq_open := e.qqq_open
    spy_open := e.spy_open
    qqq_step_pct := e.qqq_step_pct
    spy_step_pct := e.spy_step_pct
    start_qqq := e.qqq_price
    start_spy := e.spy_price
    end_qqq := end_qqq
    end_spy := end_spy
    soprano_pool := soprano_pool_of e
    bass_pool := bass_pool_of e
    soprano_center := soprano_center_of e
    bass_center := bass_center_of e }

/-- Loop-carried state of the sub-step loop: the engine attributes the
loop mutates, the loop-local previous sub-step prices, and the random
generator. -/
structure InnerSt where
  tick_count : ℕ
  clock : ℕ
  prev_soprano : Option ℤ
  prev_bass : Option ℤ
  soprano_repeat_count : ℕ
  prev_soprano_base : Option ℤ
  prev_qqq_price : Option ℚ
  prev_spy_price : Option ℚ
  rng : RngT

/-- Values appended to the per-tick output lists by one sub-step. -/
structure SubOut where
  soprano : ℤ
  bass : Option ℤ
  qqq_price_r : ℚ
  spy_price_r : ℚ
  qqq_note_price : ℚ
  spy_note_price : Option ℚ
  divergence : Bool
  deriving DecidableEq, Repr

/-- Sub-step price phase: tick counters, linear interpolation of the two
instrument prices, and the two per-sub-step jitter draws. -/
def price_phase (ctx : Ctx) (st : InnerSt) (i : ℕ) : ℚ × ℚ × InnerSt :=
  let lerp_factor : ℚ := (i : ℚ) / ((ctx.sub_steps : ℚ) - 1)
  let qqq0 := ctx.start_qqq + (ctx.end_qqq - ctx.start_qqq) * lerp_factor
  let spy0 := ctx.start_spy + (ctx.end_spy - ctx.start_spy) * lerp_factor
  let d1 := uniformD (-(1/50)) (1/50) st.rng
  let d2 := uniformD (-(1/50)) (1/50) d1.2
  (qqq0 + d1.1, spy0 + d2.1,
    { st with tick_count := st.tick_count + 1, clock := harmonic_tick st.clock, rng := d2.2 })

/-- Soprano pool restricted to chord tones on strong sub-steps, with
fallback to the full pool when the filtered pool is empty. -/
def allowed_soprano_pool (ctx : Ctx) (i : ℕ) : List ℤ :=
  if i % 4 = 0 then
    let chord_pool := ctx.soprano_pool.filter
      (fun note => ctx.chord_tone_mods.contains ((note - ctx.root_midi) % 12))
    if chord_pool = [] then ctx.soprano_pool else chord_pool
  else ctx.soprano_pool

/-- Python truthiness of `self.prev_soprano or soprano`. -/
def pyOr (o : Option ℤ) (dflt : ℤ) : ℤ :=
  match o with
  | some v => if v = 0 then dflt else v
  | none => dflt

/-- High-sensitivity soprano mode: track the raw anchor directly within
the scale and apply Brownian jitter when the base note repeats. -/
def soprano_high_sens (ctx : Ctx) (st : InnerSt) (qqq_anchor : ℤ)
    (allowed : List ℤ) : ℤ × InnerSt :=
  let base_soprano := nearest_scale_note qqq_anchor allowed
  let cnt := if st.prev_soprano_base = some base_soprano then st.soprano_repeat_count + 1 else 0
  let st1 := { st with soprano_repeat_count := cnt, prev_soprano_base := some base_soprano }
  if 1 ≤ cnt then
    let jitter_range : ℤ := min 3 (1 + (cnt : ℤ) / 2)
    let d1 := randintD (-jitter_range) jitter_range st1.rng
    let d2 := if d1.1 = 0 ∧ 2 ≤ cnt then choiceD [-1, 1] d1.2 else d1
    (offset_scale_degree base_soprano ctx.soprano_pool d2.1, { st1 with rng := d2.2 })
  else (base_soprano, st1)

/-- Standard soprano mode: windowed scale-step selection toward the raw
anchor with repeat tracking, a forced larger step at two consecutive
repeats, and the escape jump at the stuck limit. -/
def soprano_standard (ctx : Ctx) (st : InnerSt) (i : ℕ) (qqq_anchor : ℤ)
    (allowed : List ℤ) : ℤ × InnerSt :=
  let soprano_degree_step : ℤ := max 1 (min 7 (roundHalfEven ctx.sensitivity))
  let repeat_penalty_value : ℚ := if 5 ≤ ctx.sensitivity then 0 else 1/5
  let s1 := pick_scale_step st.prev_soprano qqq_anchor allowed
    (if i % 4 = 0 then max 2 soprano_degree_step else soprano_degree_step)
    repeat_penalty_value
  let s2 := nearest_scale_note s1 ctx.soprano_pool
  let s3 :=
    if i % 2 = 1 then
      match step_toward_target st.prev_soprano qqq_anchor ctx.soprano_pool soprano_degree_step with
      | some stepped => stepped
      | none => s2
    else s2
  let s4 := enforce_stepwise_motion st.prev_soprano s3 ctx.soprano_pool soprano_degree_step
  let c1 := if st.prev_soprano = some s4 then st.soprano_repeat_count + 1 else 0
  let p1 : ℤ × ℕ :=
    if 2 ≤ c1 then
      match step_toward_target st.prev_soprano qqq_anchor ctx.soprano_pool (max 2 soprano_degree_step) with
      | some forced => (forced, 0)
      | none => (s4, c1)
    else (s4, c1)
  let p2 : ℤ × ℕ :=
    if ctx.stuck_limit ≤ p1.2 then
      let direction : ℤ := if pyOr st.prev_soprano p1.1 ≤ qqq_anchor then 1 else -1
      (escape_stuck p1.1 ctx.soprano_pool direction, 0)
    else p1
  (p2.1, { st with soprano_repeat_count := p2.2 })

/-- Soprano selection on an update sub-step, dispatching on the
sensitivity threshold. -/
def soprano_select (ctx : Ctx) (st : InnerSt) (i : ℕ) (qqq_anchor : ℤ)
    (allowed : List ℤ) : ℤ × InnerSt :=
  if 4 ≤ ctx.sensitivity then soprano_high_sens ctx st qqq_anchor allowed
  else soprano_standard ctx st i qqq_anchor allowed

/-- Bass selection on a quarter-beat sub-step: nearest chord tone to the
instantaneous anchor, with a stochastic jitter of one or two scale
degrees when the note would repeat the previous bass (the Python guard
`prev_bass is not None and base_bass == prev_bass` is the single Option
equality `prev_bass = some base_bass`). -/
def bass_select (ctx : Ctx) (st : InnerSt) (spy_anchor : ℤ) : Option ℤ × InnerSt :=
  let chord_bass_pool := ctx.bass_pool.filter
    (fun note => ctx.chord_tone_mods.contains ((note - ctx.root_midi) % 12))
  let allowed_bass := if chord_bass_pool = [] then ctx.bass_pool else chord_bass_pool
  let base_bass := nearest_scale_note spy_anchor allowed_bass
  if st.prev_bass = some base_bass then
    let d := choiceD [-2, -1, 1, 2] st.rng
    let b := offset_scale_degree base_bass ctx.bass_pool d.1
    (some b, { st with prev_bass := some b, rng := d.2 })
  else (some base_bass, { st with prev_bass := some base_bass })

/-- Minimum-separation constraint applied after both voices are chosen:
when the bass is present and the soprano is below `bass + 12`, replace
it by the nearest scale note at or above `bass + 12` when one exists. -/
def apply_min_separation (soprano_pool : List ℤ) (soprano : ℤ) (bass_note : Option ℤ) : ℤ :=
  match bass_note with
  | none => soprano
  | some b =>
    let min_soprano := b + 12
    if soprano < min_soprano then
      match nearest_scale_note_above min_soprano soprano_pool with
      | some adjusted => adjusted
      | none => soprano
    else soprano

/-- Record the sub-step price as the previous fast-instrument price for
the next trend-aware anchor. -/
def set_prev_qqq (st : InnerSt) (p : ℚ) : InnerSt := { st with prev_qqq_price := some p }

/-- Record the sub-step price as the previous slow-instrument price for
the next trend-aware anchor. -/
def set_prev_spy (st : InnerSt) (p : ℚ) : InnerSt := { st with prev_spy_price := some p }

/-- Soprano rhythm gate: select a fresh pitch only at sub-steps that are
multiples of `16 / soprano_rhythm`, otherwise hold the previous pitch
(with the source fallback `72` for an unset previous pitch). -/
def soprano_phase (ctx : Ctx) (st : InnerSt) (i : ℕ) (qqq_anchor : ℤ) : ℤ × InnerSt :=
  if i % (16 / ctx.soprano_rhythm) = 0 then
    soprano_select ctx st i qqq_anchor (allowed_soprano_pool ctx i)
  else (st.prev_soprano.getD 72, st)

/-- Bass rhythm gate: select a fresh bass only on quarter-beat
sub-steps, otherwise hold the previous bass. -/
def bass_phase (ctx : Ctx) (st : InnerSt) (i : ℕ) (spy_anchor : ℤ) : Option ℤ × InnerSt :=
  if i % 4 = 0 then bass_select ctx st spy_anchor else (st.prev_bass, st)

/-- One sub-step of the bundle loop. -/
def emit (ctx : Ctx) (st : InnerSt) (i : ℕ) : SubOut × InnerSt :=
  let pp := price_phase ctx st i
  let qqq_price := pp.1
  let spy_price := pp.2.1
  let st1 := pp.2.2
  let qqq_anchor := price_to_midi qqq_price ctx.qqq_open 72 ctx.qqq_step_pct st1.prev_qqq_price
  let st2 := set_prev_qqq st1 qqq_price
  let su := soprano_phase ctx st2 i qqq_anchor
  let sop0 := su.1
  let st3 := su.2
  let spy_anchor := price_to_midi spy_price ctx.spy_open 48 ctx.spy_step_pct st3.prev_spy_price
  let st4 := set_prev_spy st3 spy_price
  let bu := bass_phase ctx st4 i spy_anchor
  let bass_note := bu.1
  let st5 := bu.2
  let bass_note_price : Option ℚ :=
    match bass_note with
    | some b => some (ctx.start_spy * (1 + ((b - ctx.bass_center : ℤ) : ℚ) * ctx.spy_step_pct))
    | none => none
  let soprano := apply_min_separation ctx.soprano_pool sop0 bass_note
  let st6 := { st5 with prev_soprano := some soprano }
  let qqq_note_price := ctx.start_qqq * (1 + ((soprano - ctx.soprano_center : ℤ) : ℚ) * ctx.qqq_step_pct)
  ({ soprano := soprano
     bass := bass_note
     qqq_price_r := roundTo4 qqq_price
     spy_price_r := roundTo4 spy_price
     qqq_note_price := roundTo4 qqq_note_price
     spy_note_price := match bass_note_price with
       | some p => some (roundTo4 p)
       | none => none
     divergence := match bass_note with
       | none => false
       | some b => check_divergence soprano b }, st6)

/-- Run `count` sub-steps starting at index `i`, collecting the outputs
in order. -/
def subSteps (ctx : Ctx) : ℕ → ℕ → InnerSt → List SubOut × InnerSt
  | _, 0, st => ([], st)
  | i, c + 1, st =>
    let p := emit ctx st i
    let rest := subSteps ctx (i + 1) c p.2
    (p.1 :: rest.1, rest.2)

/-- Loop state reached after `j` sub-steps starting at index `i`. -/
def stateAt (ctx : Ctx) (st : InnerSt) (i : ℕ) : ℕ → InnerSt
  | 0 => st
  | j + 1 => (emit ctx (stateAt ctx st i j) (i + j)).2

/-- Tick-start phase: the root-offset gate of
`generate_one_second_bundle` (the `random()` draw happens only when the
clock step is `0`, by Python short-circuiting). -/
def gate_phase (e : Engine) (regime : String) (rng : RngT) : Engine × RngT :=
  if e.clock = 0 then
    let u := randomD rng
    if u.1 < 7/20 then advance_root_offset e regime u.2 else (e, u.2)
  else (e, rng)

/-- One streamed bundle: the payload dictionary fields of
`generate_one_second_bundle` (the constant string fields included). -/
structure Bundle where
  payload_version : String
  server_path : String
  build_id : String
  soprano_bundle : List ℤ
  bass_bundle : List (Option ℤ)
  qqq_prices : List ℚ
  spy_prices : List ℚ
  qqq_note_prices : List ℚ
  spy_note_prices : List (Option ℚ)
  rvol : ℚ
  regime : String
  divergence : Bool
  chord : ℤ
  root_offset : ℤ
  start_tick : ℕ
  tick_count : ℕ
  qqq_price : ℚ
  spy_price : ℚ
  deriving DecidableEq, Repr

/-- Embeds `generate_one_second_bundle`: one tick of the engine,
returning the bundle, the updated engine and the advanced generator. -/
def generate_one_second_bundle (e : Engine) (rng : RngT) : Bundle × Engine × RngT :=
  let start_tick := e.tick_count + 1
  let regime := current_regime e
  let g := gate_phase e regime rng
  let e1 := g.1
  let start_qqq := e1.qqq_price
  let start_spy := e1.spy_price
  let p1 := next_price e1.price_noise_multiplier start_qqq (3/5) (3/100) g.2
  let end_qqq := p1.1
  let p2 := next_price e1.price_noise_multiplier start_spy (9/20) (1/50) p1.2
  let end_spy := p2.1
  let e2 := { e1 with qqq_price := end_qqq, spy_price := end_spy, root_offset := 0 }
  let ctx := mk_ctx e1 end_qqq end_spy
  let st0 : InnerSt :=
    { tick_count := e1.tick_count
      clock := e1.clock
      prev_soprano := e1.prev_soprano
      prev_bass := e1.prev_bass
      soprano_repeat_count := e1.soprano_repeat_count
      prev_soprano_base := e1.prev_soprano_base
      prev_qqq_price := none
      prev_spy_price := none
      rng := p2.2 }
  let run := subSteps ctx 0 e1.sub_steps st0
  let outs := run.1
  let stF := run.2
  let bundle : Bundle :=
    { payload_version := "bundle_v2"
      server_path := "main.py"
      build_id := "VISUAL_FIX_V28"
      soprano_bundle := outs.map (fun o => o.soprano)
      bass_bundle := outs.map (fun o => o.bass)
      qqq_prices := outs.map (fun o => o.qqq_price_r)
      spy_prices := outs.map (fun o => o.spy_price_r)
      qqq_note_prices := outs.map (fun o => o.qqq_note_price)
      spy_note_prices := outs.map (fun o => o.spy_note_price)
      rvol := 1
      regime := regime
      divergence := outs.any (fun o => o.divergence)
      chord := 1
      root_offset := e2.root_offset
      start_tick := start_tick
      tick_count := stF.tick_count
      qqq_price := roundTo2 e2.qqq_price
      spy_price := roundTo2 e2.spy_price }
  let eF :=
    { e2 with tick_count := stF.tick_count
              clock := stF.clock
              prev_soprano := stF.prev_soprano
              prev_bass := stF.prev_bass
              soprano_repeat_count := stF.soprano_repeat_count
              prev_soprano_base := stF.prev_soprano_base }
  (bundle, eF, stF.rng)

/-- Iterated bundle generation: the scheduler loop calling
`generate_one_second_bundle` once per heartbeat for `n` heartbeats. -/
def runN (e : Engine) (rng : RngT) : ℕ → List Bundle × Engine × RngT
  | 0 => ([], e, rng)
  | n + 1 =>
    let g := generate_one_second_bundle e rng
    let rest := runN g.2.1 g.2.2 n
    (g.1 :: rest.1, rest.2)

/-- Partial payload of a POST to `/config`: absent keys are `none`. -/
structure ConfigPayload where
  sensitivity : Option ℚ
  price_noise : Option ℚ
  soprano_rhythm : Option ℚ
  deriving DecidableEq, Repr

/-- Echo of the resolved configuration returned by `/config`. -/
structure ConfigResp where
  sensitivity : ℚ
  qqq_step_pct : ℚ
  spy_step_pct : ℚ
  price_noise : ℚ
  soprano_rhythm : ℕ
  deriving DecidableEq, Repr

/-- Python `int()` truncation toward zero on an exact rational. -/
def rat_toward_zero (q : ℚ) : ℤ := if 0 ≤ q then ⌊q⌋ else ⌈q⌉

/-- Embeds the `/config` handler `update_config`: note that the source
defaults a missing `sensitivity` key to the literal `1.0`, while a
missing `price_noise` key defaults to the current engine value and a
missing `soprano_rhythm` key is skipped. -/
def update_config (e : Engine) (payload : ConfigPayload) : Engine × ConfigResp :=
  let multiplier := payload.sensitivity.getD 1
  let e1 := set_sensitivity e multiplier
  let noise := payload.price_noise.getD e1.price_noise_multiplier
  let e2 := set_price_noise e1 noise
  let e3 :=
    match payload.soprano_rhythm with
    | some q => set_soprano_rhythm e2 (rat_toward_zero q)
    | none => e2
  (e3, { sensitivity := e3.sensitivity
         qqq_step_pct := e3.qqq_step_pct
         spy_step_pct := e3.spy_step_pct
         price_noise := e3.price_noise_multiplier
         soprano_rhythm := e3.soprano_rhythm })

/-- Constant oracle used for concrete runs: every market draw and every
musical draw reads one half. -/
def rngHalf : RngT := { mkt := fun _ => 1/2, mus := fun _ => 1/2, mkt_pos := 0, mus_pos := 0 }

/-- Market oracle that walks the fast instrument down at full noise and
the slow instrument up at full noise: position `1` of each 35-draw tick
block is the fast-price noise draw, position `2` the slow-price noise
draw. -/
def mktC1 : ℕ → ℚ := fun n => if n % 35 = 1 then 0 else if n % 35 = 2 then 1 else 1/2

/-- Oracle for the separation counterexample run. -/
def rngC1 : RngT := { mkt := mktC1, mus := fun _ => 1/2, mkt_pos := 0, mus_pos := 0 }

/-- Engine configured at maximum sensitivity, as a `/config` request can
produce. -/
def eC1 : Engine := set_sensitivity engineInit 10

/-- Engine state whose fast price has drifted far above the open, so the
price-implied soprano target sits far above the soprano window, with the
previous soprano pinned at the top pool note. -/
def eC5 : Engine := { engineInit with qqq_price := 600, prev_soprano := some 108 }

/-- Separation fixed point: the minimum-separation pass leaves the pitch
pair unchanged because either the separation already holds or no scale
note at or above `bass + 12` exists in the pool. -/
def sep_fixed (pool : List ℤ) (s : ℤ) (bass : Option ℤ) : Prop :=
  ∀ b, bass = some b → s < b + 12 → nearest_scale_note_above (b + 12) pool = none

set_option maxRecDepth 8000
set_option maxHeartbeats 1000000

/-- Lower bound of round-half-to-even: it never moves below the floor. -/
theorem floor_le_roundHalfEven (q : ℚ) : ⌊q⌋ ≤ roundHalfEven q := by
  simp only [roundHalfEven]
  split_ifs <;> omega

/-- Upper bound of round-half-to-even: it never moves above the ceiling. -/
theorem roundHalfEven_le_ceil (q : ℚ) : roundHalfEven q ≤ ⌈q⌉ := by
  have hfc : ⌊q⌋ ≤ ⌈q⌉ := le_trans (Int.floor_le_ceil q) (le_refl _)
  have hstep : ¬ (q - (⌊q⌋ : ℚ) < 1/2) → ⌊q⌋ + 1 ≤ ⌈q⌉ := by
    intro h
    have hq : (⌊q⌋ : ℚ) < q := by
      have : (1 : ℚ)/2 ≤ q - (⌊q⌋ : ℚ) := le_of_not_lt h
      linarith
    exact Int.add_one_le_iff.mpr (Int.lt_ceil.mpr hq)
  simp only [roundHalfEven]
  split_ifs with h1 h2 h3
  · exact hfc
  · exact hstep h1
  · exact hfc
  · exact hstep h1

/-- C2: for every price, positive open price, positive step percentage
and previous price, the quantizer returns `base_midi` plus the semitone
count obtained from the raw semitone offset
`((price - open) / open) / step_pct` by rounding up on a rise, down on a
fall, and to nearest (half to even, as Python `round`) when the prices
are equal or the previous price is unknown; consequently on a rise the
anchor dominates the naive round-to-nearest value and on a fall it is
dominated by it.  The result is the unclamped `base_midi + semitones`. -/
theorem c2_trend_aware_rounding (price open_price : ℚ) (base_midi : ℤ) (step_pct : ℚ)
    (prev : ℚ) (_hopen : 0 < open_price) (_hstep : 0 < step_pct) :
    (price_to_midi price open_price base_midi step_pct none
        = base_midi + roundHalfEven (((price - open_price) / open_price) / step_pct))
  ∧ (prev < price → price_to_midi price open_price base_midi step_pct (some prev)
        = base_midi + ⌈((price - open_price) / open_price) / step_pct⌉)
  ∧ (price < prev → price_to_midi price open_price base_midi step_pct (some prev)
        = base_midi + ⌊((price - open_price) / open_price) / step_pct⌋)
  ∧ (prev = price → price_to_midi price open_price base_midi step_pct (some prev)
        = base_midi + roundHalfEven (((price - open_price) / open_price) / step_pct))
  ∧ (prev < price →
        base_midi + roundHalfEven (((price - open_price) / open_price) / step_pct)
          ≤ price_to_midi price open_price base_midi step_pct (some prev))
  ∧ (price < prev →
        price_to_midi price open_price base_midi step_pct (some prev)
          ≤ base_midi + roundHalfEven (((price - open_price) / open_price) / step_pct)) := by
  refine ⟨rfl, ?_, ?_, ?_, ?_, ?_⟩
  · intro h
    simp only [price_to_midi, if_pos h]
  · intro h
    have hnr : ¬ prev < price := not_lt_of_gt h
    simp only [price_to_midi, if_neg hnr, if_pos h]
  · intro h
    have h1 : ¬ prev < price := by rw [h]; exact lt_irrefl price
    have h2 : ¬ price < prev := by rw [h]; exact lt_irrefl price
    simp only [price_to_midi, if_neg h1, if_neg h2]
  · intro h
    have hnr : ¬ price < prev := not_lt_of_gt h
    simp only [price_to_midi, if_pos h]
    exact add_le_add_left (roundHalfEven_le_ceil _) base_midi
  · intro h
    have hnr : ¬ prev < price := not_lt_of_gt h
    simp only [price_to_midi, if_neg hnr, if_pos h]
    exact add_le_add_left (floor_le_roundHalfEven _) base_midi

/-- Witness for C2 at the concrete rise `1 → 2` with open price `1` and
step percentage `1`. -/
theorem c2_witness :
    price_to_midi 2 1 5 1 (some 1) = 5 + ⌈(((2 : ℚ) - 1) / 1) / 1⌉ :=
  (c2_trend_aware_rounding 2 1 5 1 1 (by norm_num) (by norm_num)).2.1 (by norm_num)

/-- C4: bundle generation is a deterministic function of the engine
state and the single engine-owned generator; two runs of `n` ticks from
equal states with equal generator states produce identical bundle
sequences, every field of every bundle included. -/
theorem c4_determinism (e1 e2 : Engine) (r1 r2 : RngT) (n : ℕ)
    (he : e1 = e2) (hr : r1 = r2) :
    (runN e1 r1 n).1 = (runN e2 r2 n).1 := by
  subst he
  subst hr
  rfl

/-- Witness for C4: two two-tick replays from the fresh engine with the
same oracle agree. -/
theorem c4_witness : (runN engineInit rngHalf 2).1 = (runN engineInit rngHalf 2).1 :=
  c4_determinism engineInit engineInit rngHalf rngHalf 2 rfl rfl

/-- C9: the price advance adds uniform noise scaled by the noise
multiplier plus drift and floors the result at `0.01`, so it returns at
least `0.01`; hence both instrument prices held by the engine are at
least `0.01`, in particular strictly positive, after every tick. -/
theorem c9_price_floor :
    (∀ pnm current step drift rng,
        next_price pnm current step drift rng
          = (max (1/100) (current + (uniformD (-(step * pnm)) (step * pnm) rng).1 + drift),
             (uniformD (-(step * pnm)) (step * pnm) rng).2))
  ∧ (∀ pnm current step drift rng, (1 : ℚ)/100 ≤ (next_price pnm current step drift rng).1)
  ∧ (∀ e rng, (1 : ℚ)/100 ≤ (generate_one_second_bundle e rng).2.1.qqq_price
        ∧ (1 : ℚ)/100 ≤ (generate_one_second_bundle e rng).2.1.spy_price) :=
  ⟨fun _ _ _ _ _ => rfl,
   fun _ _ _ _ _ => le_max_left _ _,
   fun _ _ => ⟨le_max_left _ _, le_max_left _ _⟩⟩

/-- C3 (counterexample): from the fresh engine the harmonic clock sits
at step `2` after the second sub-step of the tick, the MAJOR progression
entry at step `2` is degree `4`, yet the degree used for the chord-tone
filters and reported in the bundle is `1`. -/
theorem c3_counterexample :
    (generate_one_second_bundle engineInit rngHalf).1.chord = 1
  ∧ current_regime engineInit = "MAJOR"
  ∧ harmonic_tick (harmonic_tick engineInit.clock) = 2
  ∧ (chord_progression (current_regime engineInit)).getD 2 0 = 4
  ∧ (1 : ℤ) ≠ 4 := by
  refine ⟨rfl, rfl, by decide, by decide, by decide⟩

/-- C3 (amended): the chord degree used to build the chord-tone filters
and reported in the emitted bundle is the constant `1` for every engine
state and every oracle; the progression-table lookup
`select_chord_degree` exists but is not invoked by the bundle
generator. -/
theorem c3_chord_degree_amended :
    (∀ e rng, (generate_one_second_bundle e rng).1.chord = 1)
  ∧ (∀ e regime, (select_chord_degree e regime).1 = (chord_progression regime).getD e.clock 0) :=
  ⟨fun _ _ => rfl, fun _ _ => rfl⟩

/-- C6: the `/config` handler defaults a missing `sensitivity` key to
the literal `1.0` rather than to the current engine value, so a POST
omitting `sensitivity` resets the sensitivity and both step percentages;
missing `price_noise` and `soprano_rhythm` keys do preserve the current
values. -/
theorem c6_config_sensitivity_reset :
    (set_sensitivity engineInit 2).sensitivity = 2
  ∧ (set_sensitivity engineInit 2).qqq_step_pct = 3/4000
  ∧ (update_config (set_sensitivity engineInit 2)
        { sensitivity := none, price_noise := none, soprano_rhythm := none }).1.sensitivity = 1
  ∧ (update_config (set_sensitivity engineInit 2)
        { sensitivity := none, price_noise := none, soprano_rhythm := none }).1.qqq_step_pct = 3/2000
  ∧ (update_config (set_sensitivity engineInit 2)
        { sensitivity := none, price_noise := none, soprano_rhythm := none }).1.spy_step_pct = 1/1000
  ∧ (update_config { set_sensitivity engineInit 2 with
        price_noise_multiplier := 3, soprano_rhythm := 8 }
        { sensitivity := none, price_noise := none, soprano_rhythm := none }).1.price_noise_multiplier = 3
  ∧ (update_config { set_sensitivity engineInit 2 with
        price_noise_multiplier := 3, soprano_rhythm := 8 }
        { sensitivity := none, price_noise := none, soprano_rhythm := none }).1.soprano_rhythm = 8
  ∧ (2 : ℚ) ≠ 1 := by
  refine ⟨by decide, by decide, by decide, by decide, by decide, by decide, by decide, by decide⟩

/-- C8: every selection helper handles an empty legal-pitch pool totally
(the Lean embedding is a total function, mirroring that the Python code
raises on none of these paths): `pick` and `pick_pitch_class` return the
previous pitch when known and the range minimum otherwise, while the
target-seeking `pick_near_target` and `pick_scale_step` return the
previous pitch when known and the unclamped target otherwise. -/
theorem c8_empty_pool_fallbacks :
    (∀ root prev tones lo hi, VoiceLeading.candidates root tones lo hi = [] →
        VoiceLeading.pick root prev tones lo hi = prev.getD lo)
  ∧ (∀ prev pc lo hi, VoiceLeading.pc_candidates pc lo hi = [] →
        VoiceLeading.pick_pitch_class prev pc lo hi = prev.getD lo)
  ∧ (∀ prev pc target lo hi, VoiceLeading.pc_candidates pc lo hi = [] →
        VoiceLeading.pick_near_target prev pc target lo hi = prev.getD target)
  ∧ (∀ prev target k pen, pick_scale_step prev target [] k pen = prev.getD target) := by
  refine ⟨?_, ?_, ?_, ?_⟩
  · intro root prev tones lo hi h
    simp only [VoiceLeading.pick, if_pos h]
  · intro prev pc lo hi h
    simp only [VoiceLeading.pick_pitch_class, if_pos h]
  · intro prev pc target lo hi h
    simp only [VoiceLeading.pick_near_target, if_pos h]
  · intro prev target k pen
    simp [pick_scale_step]

/-- Witness for C8 at the empty range `[1, 0]` and the empty pool: each
fallback is exercised at a concrete input. -/
theorem c8_witness :
    VoiceLeading.pick 60 (some 71) [0, 4, 7] 1 0 = 71
  ∧ VoiceLeading.pick_pitch_class none 5 1 0 = 1
  ∧ VoiceLeading.pick_near_target (some 64) 5 99 1 0 = 64
  ∧ pick_scale_step none 55 [] 2 (1/5) = 55 :=
  ⟨(c8_empty_pool_fallbacks.1 60 (some 71) [0, 4, 7] 1 0 (by decide)),
   (c8_empty_pool_fallbacks.2.1 none 5 1 0 (by decide)),
   (c8_empty_pool_fallbacks.2.2.1 (some 64) 5 99 1 0 (by decide)),
   (c8_empty_pool_fallbacks.2.2.2 none 55 2 (1/5))⟩

/-- C5: evaluation of the engine at a concrete stuck state.  With the
previous soprano pinned at the top pool note `108` and the price-implied
target far above the pool, the naive target repeats `108` at every one
of the 16 update points with an unchanging upward direction, yet the
engine emits `108` at all 16 consecutive update points: the forced step
taken at two consecutive repeats returns the previous pitch while still
resetting the repeat counter, so the counter never reaches the stuck
limit `8` and no different pitch is emitted within `stuckLimit + 1 = 9`
update points. -/
theorem c5_stagnation_evaluation :
    (generate_one_second_bundle eC5 rngHalf).1.soprano_bundle = List.replicate 16 108
  ∧ eC5.prev_soprano = some 108
  ∧ eC5.stuck_limit + 1 ≤ 16
  ∧ nearest_scale_note
      (price_to_midi ((generate_one_second_bundle eC5 rngHalf).1.qqq_prices.getD 0 0)
        eC5.qqq_open 72 eC5.qqq_step_pct none)
      (soprano_pool_of eC5) = 108
  ∧ (generate_one_second_bundle eC5 rngHalf).2.1.soprano_repeat_count = 0 := by
  refine ⟨by decide, by decide, by decide, by decide, by decide⟩

/-- C1 (counterexample): in a run of two ticks from the fresh engine
configured at sensitivity `10`, the second generated bundle contains a
sub-step with a non-null bass pitch `64` and soprano pitch `60`, so the
emitted soprano minus the emitted bass is below `12` semitones (the
voices even cross): the replacement pitch at or above `bass + 12` does
not exist in the soprano scale pool of that tick, and the code then
leaves the low soprano unchanged. -/
theorem c1_counterexample :
    (∃ bu ∈ (runN eC1 rngC1 2).1,
        bu.bass_bundle.getD 8 none = some 64 ∧ bu.soprano_bundle.getD 8 0 = 60)
  ∧ ¬ (12 ≤ (60 : ℤ) - 64) := by
  refine ⟨by decide, by decide⟩

/-- A left fold computing a running minimum stays inside the initial
element and the list. -/
theorem foldl_min_mem {α β : Type} [LinearOrder β] (f : α → β) :
    ∀ (ys : List α) (b : α),
      ys.foldl (fun best a => if f a < f best then a else best) b ∈ b :: ys := by
  intro ys
  induction ys with
  | nil => intro b; simp
  | cons y ys ih =>
    intro b
    simp only [List.foldl_cons]
    have h := ih (if f y < f b then y else b)
    rcases List.mem_cons.mp h with h1 | h1
    · by_cases hf : f y < f b
      · rw [if_pos hf] at h1 ⊢
        rw [h1]
        simp
      · rw [if_neg hf] at h1 ⊢
        rw [h1]
        simp
    · exact List.mem_cons_of_mem _ (List.mem_cons_of_mem _ h1)

/-- A minimiser returned by `minByKey` is a member of the list. -/
theorem minByKey_mem {α β : Type} [LinearOrder β] (f : α → β) (l : List α) (a : α)
    (h : minByKey f l = some a) : a ∈ l := by
  cases l with
  | nil => simp [minByKey] at h
  | cons x xs =>
    simp only [minByKey, Option.some.injEq] at h
    rw [← h]
    exact foldl_min_mem f xs x

/-- `minByKey` returns `none` exactly on the empty list. -/
theorem minByKey_none_iff {α β : Type} [LinearOrder β] (f : α → β) (l : List α) :
    minByKey f l = none ↔ l = [] := by
  cases l <;> simp [minByKey]

/-- A pitch returned by `nearest_scale_note_above` is at or above the
requested floor. -/
theorem nearest_above_some_le (t : ℤ) (pool : List ℤ) (a : ℤ)
    (h : nearest_scale_note_above t pool = some a) : t ≤ a := by
  have hmem := minByKey_mem _ _ _ h
  have hfil := List.of_mem_filter hmem
  exact of_decide_eq_true hfil

/-- When the pool holds some pitch at or above the floor,
`nearest_scale_note_above` does not return `none`. -/
theorem nearest_above_ne_none (t : ℤ) (pool : List ℤ) (n : ℤ)
    (hn : n ∈ pool) (hle : t ≤ n) : nearest_scale_note_above t pool ≠ none := by
  unfold nearest_scale_note_above
  rw [Ne, minByKey_none_iff]
  intro hempty
  have hmem : n ∈ pool.filter (fun note => decide (t ≤ note)) :=
    List.mem_filter.mpr ⟨hn, by simpa⟩
  rw [hempty] at hmem
  exact absurd hmem (List.not_mem_nil n)

/-- The separation pass is the identity on a separation fixed point. -/
theorem sep_id (pool : List ℤ) (s : ℤ) (bass : Option ℤ) (h : sep_fixed pool s bass) :
    apply_min_separation pool s bass = s := by
  cases bass with
  | none => rfl
  | some b =>
    simp only [apply_min_separation]
    by_cases hlt : s < b + 12
    · rw [if_pos hlt, h b rfl hlt]
    · rw [if_neg hlt]

/-- The separation pass establishes the separation fixed point. -/
theorem sep_post (pool : List ℤ) (s : ℤ) (bass : Option ℤ) :
    sep_fixed pool (apply_min_separation pool s bass) bass := by
  intro b hb hlt
  subst hb
  simp only [apply_min_separation] at hlt
  by_cases h : s < b + 12
  · rw [if_pos h] at hlt
    cases hcase : nearest_scale_note_above (b + 12) pool with
    | none => rfl
    | some a =>
      rw [hcase] at hlt
      exact absurd (nearest_above_some_le _ _ _ hcase) (not_le.mpr hlt)
  · rw [if_neg h] at hlt
    exact absurd hlt h

/-- When the pool holds a pitch at or above `bass + 12`, the separation
pass yields a pitch at or above `bass + 12`. -/
theorem sep_ge (pool : List ℤ) (s : ℤ) (bass : Option ℤ) (b : ℤ) (hb : bass = some b)
    (n : ℤ) (hn : n ∈ pool) (hle : b + 12 ≤ n) :
    b + 12 ≤ apply_min_separation pool s bass := by
  subst hb
  simp only [apply_min_separation]
  by_cases h : s < b + 12
  · rw [if_pos h]
    cases hcase : nearest_scale_note_above (b + 12) pool with
    | none => exact absurd hcase (nearest_above_ne_none _ _ n hn hle)
    | some a => exact nearest_above_some_le _ _ _ hcase
  · rw [if_neg h]
    exact le_of_not_lt h

/-- The price phase leaves the previous soprano unchanged. -/
theorem price_phase_prev_soprano (ctx : Ctx) (st : InnerSt) (i : ℕ) :
    (price_phase ctx st i).2.2.prev_soprano = st.prev_soprano := rfl

/-- The price phase leaves the previous bass unchanged. -/
theorem price_phase_prev_bass (ctx : Ctx) (st : InnerSt) (i : ℕ) :
    (price_phase ctx st i).2.2.prev_bass = st.prev_bass := rfl

/-- Recording the fast price leaves the previous soprano unchanged. -/
theorem set_prev_qqq_prev_soprano (st : InnerSt) (p : ℚ) :
    (set_prev_qqq st p).prev_soprano = st.prev_soprano := rfl

/-- Recording the fast price leaves the previous bass unchanged. -/
theorem set_prev_qqq_prev_bass (st : InnerSt) (p : ℚ) :
    (set_prev_qqq st p).prev_bass = st.prev_bass := rfl

/-- Recording the slow price leaves the previous bass unchanged. -/
theorem set_prev_spy_prev_bass (st : InnerSt) (p : ℚ) :
    (set_prev_spy st p).prev_bass = st.prev_bass := rfl

/-- The high-sensitivity soprano mode never writes the previous-bass
field. -/
theorem soprano_high_sens_prev_bass (ctx : Ctx) (st : InnerSt) (a : ℤ) (l : List ℤ) :
    (soprano_high_sens ctx st a l).2.prev_bass = st.prev_bass := by
  simp only [soprano_high_sens]
  split_ifs <;> rfl

/-- The high-sensitivity soprano mode never writes the previous-soprano
field. -/
theorem soprano_high_sens_prev_soprano (ctx : Ctx) (st : InnerSt) (a : ℤ) (l : List ℤ) :
    (soprano_high_sens ctx st a l).2.prev_soprano = st.prev_soprano := by
  simp only [soprano_high_sens]
  split_ifs <;> rfl

/-- The standard soprano mode never writes the previous-bass field. -/
theorem soprano_standard_prev_bass (ctx : Ctx) (st : InnerSt) (i : ℕ) (a : ℤ) (l : List ℤ) :
    (soprano_standard ctx st i a l).2.prev_bass = st.prev_bass := rfl

/-- The standard soprano mode never writes the previous-soprano field. -/
theorem soprano_standard_prev_soprano (ctx : Ctx) (st : InnerSt) (i : ℕ) (a : ℤ) (l : List ℤ) :
    (soprano_standard ctx st i a l).2.prev_soprano = st.prev_soprano := rfl

/-- Soprano selection never writes the previous-bass field. -/
theorem soprano_select_prev_bass (ctx : Ctx) (st : InnerSt) (i : ℕ) (a : ℤ) (l : List ℤ) :
    (soprano_select ctx st i a l).2.prev_bass = st.prev_bass := by
  unfold soprano_select
  split
  · exact soprano_high_sens_prev_bass _ _ _ _
  · exact soprano_standard_prev_bass _ _ _ _ _

/-- Soprano selection never writes the previous-soprano field. -/
theorem soprano_select_prev_soprano (ctx : Ctx) (st : InnerSt) (i : ℕ) (a : ℤ) (l : List ℤ) :
    (soprano_select ctx st i a l).2.prev_soprano = st.prev_soprano := by
  unfold soprano_select
  split
  · exact soprano_high_sens_prev_soprano _ _ _ _
  · exact soprano_standard_prev_soprano _ _ _ _ _

/-- The soprano phase never writes the previous-bass field. -/
theorem soprano_phase_prev_bass (ctx : Ctx) (st : InnerSt) (i : ℕ) (a : ℤ) :
    (soprano_phase ctx st i a).2.prev_bass = st.prev_bass := by
  unfold soprano_phase
  split
  · exact soprano_select_prev_bass _ _ _ _ _
  · rfl

/-- Holding sub-steps of the soprano rhythm gate return the previous
soprano pitch. -/
theorem soprano_phase_hold_sop (ctx : Ctx) (st : InnerSt) (i : ℕ) (a : ℤ)
    (h : i % (16 / ctx.soprano_rhythm) ≠ 0) :
    (soprano_phase ctx st i a).1 = st.prev_soprano.getD 72 := by
  unfold soprano_phase
  rw [if_neg h]

/-- Holding sub-steps of the soprano rhythm gate leave the state
unchanged. -/
theorem soprano_phase_hold_st (ctx : Ctx) (st : InnerSt) (i : ℕ) (a : ℤ)
    (h : i % (16 / ctx.soprano_rhythm) ≠ 0) :
    (soprano_phase ctx st i a).2 = st := by
  unfold soprano_phase
  rw [if_neg h]

/-- Bass selection writes exactly the returned note into the
previous-bass field. -/
theorem bass_select_prev_bass (ctx : Ctx) (st : InnerSt) (a : ℤ) :
    (bass_select ctx st a).2.prev_bass = (bass_select ctx st a).1 := by
  simp only [bass_select]
  split_ifs <;> rfl

/-- Bass selection never returns a null note. -/
theorem bass_select_isSome (ctx : Ctx) (st : InnerSt) (a : ℤ) :
    ((bass_select ctx st a).1).isSome = true := by
  simp only [bass_select]
  split_ifs <;> rfl

/-- The bass rhythm gate preserves the link between the returned note
and the previous-bass field. -/
theorem bass_phase_post (ctx : Ctx) (st : InnerSt) (i : ℕ) (a : ℤ) :
    (bass_phase ctx st i a).2.prev_bass = (bass_phase ctx st i a).1 := by
  unfold bass_phase
  split
  · exact bass_select_prev_bass _ _ _
  · rfl

/-- The bass rhythm gate emits a non-null note whenever the previous
bass is non-null. -/
theorem bass_phase_isSome (ctx : Ctx) (st : InnerSt) (i : ℕ) (a : ℤ)
    (h : st.prev_bass.isSome = true) :
    ((bass_phase ctx st i a).1).isSome = true := by
  unfold bass_phase
  split
  · exact bass_select_isSome _ _ _
  · exact h

/-- Holding sub-steps of the bass gate return the previous bass. -/
theorem bass_phase_hold_bass (ctx : Ctx) (st : InnerSt) (i : ℕ) (a : ℤ)
    (h : i % 4 ≠ 0) : (bass_phase ctx st i a).1 = st.prev_bass := by
  unfold bass_phase
  rw [if_neg h]

/-- The sub-step records the emitted soprano as the previous soprano. -/
theorem emit_prev_soprano (ctx : Ctx) (st : InnerSt) (i : ℕ) :
    (emit ctx st i).2.prev_soprano = some ((emit ctx st i).1.soprano) := rfl

/-- The sub-step records the emitted bass as the previous bass. -/
theorem emit_prev_bass (ctx : Ctx) (st : InnerSt) (i : ℕ) :
    (emit ctx st i).2.prev_bass = (emit ctx st i).1.bass := by
  change (bass_phase ctx _ i _).2.prev_bass = (bass_phase ctx _ i _).1
  exact bass_phase_post _ _ _ _

/-- The emitted pair satisfies the separation fixed point: either the
soprano is at least an octave above the bass or no pool pitch at or
above `bass + 12` exists. -/
theorem emit_sep (ctx : Ctx) (st : InnerSt) (i : ℕ) :
    sep_fixed ctx.soprano_pool ((emit ctx st i).1.soprano) ((emit ctx st i).1.bass) :=
  sep_post ctx.soprano_pool _ ((emit ctx st i).1.bass)

/-- When the bass is non-null and the soprano pool reaches `bass + 12`,
the emitted voices are separated by at least an octave. -/
theorem emit_sep_ge (ctx : Ctx) (st : InnerSt) (i : ℕ) (b n : ℤ)
    (hb : (emit ctx st i).1.bass = some b)
    (hn : n ∈ ctx.soprano_pool) (hle : b + 12 ≤ n) :
    b + 12 ≤ (emit ctx st i).1.soprano :=
  sep_ge ctx.soprano_pool _ ((emit ctx st i).1.bass) b hb n hn hle

/-- The sub-step emits a non-null bass whenever the previous bass is
non-null. -/
theorem emit_bass_isSome (ctx : Ctx) (st : InnerSt) (i : ℕ)
    (h : st.prev_bass.isSome = true) :
    ((emit ctx st i).1.bass).isSome = true := by
  change ((bass_phase ctx _ i _).1).isSome = true
  apply bass_phase_isSome
  rw [set_prev_spy_prev_bass, soprano_phase_prev_bass, set_prev_qqq_prev_bass,
    price_phase_prev_bass]
  exact h

/-- Holding sub-steps re-emit the previous soprano: on a sub-step where
neither voice updates, the held soprano passes the separation pass
unchanged because the previous pair is a separation fixed point. -/
theorem emit_hold (ctx : Ctx) (st : InnerSt) (i : ℕ)
    (hni : i % (16 / ctx.soprano_rhythm) ≠ 0) (h4 : i % 4 ≠ 0)
    (s : ℤ) (hs : st.prev_soprano = some s)
    (hfp : sep_fixed ctx.soprano_pool s st.prev_bass) :
    (emit ctx st i).1.soprano = s := by
  change apply_min_separation ctx.soprano_pool
      (soprano_phase ctx _ i _).1 (bass_phase ctx _ i _).1 = s
  rw [soprano_phase_hold_sop _ _ _ _ hni, bass_phase_hold_bass _ _ _ _ h4]
  rw [set_prev_spy_prev_bass, soprano_phase_prev_bass, set_prev_qqq_prev_bass,
    price_phase_prev_bass]
  rw [set_prev_qqq_prev_soprano, price_phase_prev_soprano, hs]
  simp only [Option.getD_some]
  exact sep_id _ _ _ hfp

/-- The sub-step loop produces exactly `count` outputs. -/
theorem subSteps_length (ctx : Ctx) :
    ∀ (count i : ℕ) (st : InnerSt), ((subSteps ctx i count st).1).length = count := by
  intro count
  induction count with
  | zero => intro i st; rfl
  | succ c ih =>
    intro i st
    simp only [subSteps, List.length_cons]
    rw [ih]

/-- Shifting the loop start by one sub-step commutes with stepping the
state. -/
theorem stateAt_shift (ctx : Ctx) (st : InnerSt) (i : ℕ) :
    ∀ j, stateAt ctx ((emit ctx st i).2) (i + 1) j = stateAt ctx st i (j + 1) := by
  intro j
  induction j with
  | zero => rfl
  | succ k ih =>
    have harith : i + 1 + k = i + (k + 1) := by omega
    simp only [stateAt, ih, harith]

/-- The `j`-th output of the sub-step loop is the emission of the `j`-th
iterated state. -/
theorem subSteps_get (ctx : Ctx) :
    ∀ (count j i : ℕ) (st : InnerSt), j < count →
      ((subSteps ctx i count st).1).get? j
        = some ((emit ctx (stateAt ctx st i j) (i + j)).1) := by
  intro count
  induction count with
  | zero => intro j i st h; omega
  | succ c ih =>
    intro j i st h
    cases j with
    | zero =>
      simp only [subSteps, List.get?]
      rfl
    | succ k =>
      have harith : i + 1 + k = i + (k + 1) := by omega
      simp only [subSteps, List.get?]
      rw [ih k (i + 1) (emit ctx st i).2 (by omega)]
      rw [stateAt_shift, harith]

/-- The tick-start gate changes at most the root offset and the root
degree index of the engine. -/
theorem gate_phase_shape (e : Engine) (regime : String) (rng : RngT) :
    ∃ a b, (gate_phase e regime rng).1
      = { e with root_offset := a, root_degree_index := b } := by
  simp only [gate_phase, advance_root_offset]
  split_ifs <;>
    first
      | exact ⟨e.root_offset, e.root_degree_index, rfl⟩
      | exact ⟨_, _, rfl⟩

/-- Every state the sub-step loop reaches keeps a non-null previous
bass. -/
theorem stateAt_bass_isSome (ctx : Ctx) (st0 : InnerSt)
    (h : st0.prev_bass.isSome = true) :
    ∀ j, ((stateAt ctx st0 0 j).prev_bass).isSome = true := by
  intro j
  induction j with
  | zero => exact h
  | succ k ih =>
    show ((emit ctx (stateAt ctx st0 0 k) (0 + k)).2.prev_bass).isSome = true
    rw [emit_prev_bass]
    exact emit_bass_isSome _ _ _ ih

/-- Every bass entry of the loop output is non-null when the loop starts
with a non-null previous bass. -/
theorem run_bass_isSome (ctx : Ctx) (st0 : InnerSt) (count j : ℕ) (x : Option ℤ)
    (h0 : st0.prev_bass.isSome = true)
    (hx : ((subSteps ctx 0 count st0).1.map (fun o => o.bass)).get? j = some x) :
    x.isSome = true := by
  by_cases hj : j < count
  · rw [List.get?_map, subSteps_get ctx count j 0 st0 hj, Option.map_some',
      Option.some.injEq] at hx
    rw [← hx]
    exact emit_bass_isSome _ _ _ (stateAt_bass_isSome ctx st0 h0 j)
  · rw [List.get?_eq_none.mpr (by rw [List.length_map, subSteps_length]; omega)] at hx
    exact absurd hx (by simp)

/-- On a sub-step where neither voice updates, the loop output repeats
the previous output soprano. -/
theorem hold_general (ctx : Ctx) (st0 : InnerSt) (count i : ℕ)
    (h4 : i % 4 ≠ 0) (h1 : 1 ≤ i) (h2 : i < count)
    (hni : i % (16 / ctx.soprano_rhythm) ≠ 0) :
    ((subSteps ctx 0 count st0).1.map (fun o => o.soprano)).get? i
      = ((subSteps ctx 0 count st0).1.map (fun o => o.soprano)).get? (i - 1) := by
  have hi1 : i - 1 < count := by omega
  rw [List.get?_map, List.get?_map, subSteps_get ctx count i 0 st0 h2,
    subSteps_get ctx count (i - 1) 0 st0 hi1, Option.map_some', Option.map_some']
  simp only [Nat.zero_add]
  have hstep : stateAt ctx st0 0 i
      = (emit ctx (stateAt ctx st0 0 (i - 1)) (i - 1)).2 := by
    conv_lhs => rw [show i = (i - 1) + 1 from by omega]
    show (emit ctx (stateAt ctx st0 0 (i - 1)) (0 + (i - 1))).2 = _
    rw [Nat.zero_add]
  rw [hstep]
  refine congrArg some ?_
  refine emit_hold ctx _ i hni h4 _ (emit_prev_soprano _ _ _) ?_
  rw [emit_prev_bass]
  exact emit_sep _ _ _

/-- C1 (amended): for every sub-step of every generated bundle in which
the bass pitch is non-null, if the soprano scale pool of that tick
contains some pitch at or above `bass + 12`, then the emitted soprano
minus the emitted bass is at least 12 semitones: a soprano below
`bass + 12` is replaced by the nearest scale-legal pitch at or above
`bass + 12`.  When the pool tops out below `bass + 12` the soprano is
left unchanged and the voices can come closer than an octave. -/
theorem c1_min_separation_amended (e : Engine) (rng : RngT) (i : ℕ) (b s : ℤ)
    (hb : (generate_one_second_bundle e rng).1.bass_bundle.get? i = some (some b))
    (hs : (generate_one_second_bundle e rng).1.soprano_bundle.get? i = some s)
    (hex : ∃ n ∈ soprano_pool_of e, b + 12 ≤ n) :
    b + 12 ≤ s := by
  obtain ⟨n, hn, hle⟩ := hex
  obtain ⟨a2, b2, hE⟩ := gate_phase_shape e (current_regime e) rng
  simp only [generate_one_second_bundle] at hb hs
  rw [hE] at hb hs
  by_cases hj : i < ({ e with root_offset := a2, root_degree_index := b2 } : Engine).sub_steps
  · rw [List.get?_map, subSteps_get _ _ i 0 _ hj, Option.map_some',
      Option.some.injEq] at hb hs
    rw [← hs]
    refine emit_sep_ge _ _ _ b n hb ?_ hle
    exact hn
  · rw [List.get?_eq_none.mpr (by rw [List.length_map, subSteps_length]; omega)] at hb
    exact absurd hb (by simp)

/-- Witness for C1 (amended) at sub-step 0 of the first bundle of the
fresh engine: bass 50, soprano 74, and pool pitch 84 is at or above
62. -/
theorem c1_witness : (50 : ℤ) + 12 ≤ 74 :=
  c1_min_separation_amended engineInit rngHalf 0 50 74 (by decide) (by decide)
    ⟨84, by decide, by decide⟩

/-- C7: for every tick with soprano rhythm in `{4, 8, 16}`, at every
sub-step that is not a multiple of `16 / rhythm` the emitted soprano
pitch equals the soprano pitch emitted at the previous sub-step: a new
soprano pitch is selected only at the rhythm boundaries, and the held
pitch passes the separation pass unchanged because the bass is also held
on such sub-steps. -/
theorem c7_soprano_hold (e : Engine) (rng : RngT)
    (hr : e.soprano_rhythm = 4 ∨ e.soprano_rhythm = 8 ∨ e.soprano_rhythm = 16)
    (hsub : e.sub_steps = 16) (i : ℕ) (h1 : 1 ≤ i) (h2 : i < 16)
    (hni : i % (16 / e.soprano_rhythm) ≠ 0) :
    (generate_one_second_bundle e rng).1.soprano_bundle.get? i
      = (generate_one_second_bundle e rng).1.soprano_bundle.get? (i - 1) := by
  obtain ⟨a2, b2, hE⟩ := gate_phase_shape e (current_regime e) rng
  have h4 : i % 4 ≠ 0 := by
    rcases hr with h | h | h <;> rw [h] at hni <;> omega
  simp only [generate_one_second_bundle]
  rw [hE]
  refine hold_general _ _ _ i h4 h1 ?_ ?_
  · show i < e.sub_steps
    omega
  · exact hni

/-- Witness for C7: at quarter-note rhythm, sub-step 1 of the first
bundle holds the pitch emitted at sub-step 0. -/
theorem c7_witness :
    (generate_one_second_bundle (set_soprano_rhythm engineInit 4) rngHalf).1.soprano_bundle.get? 1
      = (generate_one_second_bundle (set_soprano_rhythm engineInit 4) rngHalf).1.soprano_bundle.get? 0 :=
  c7_soprano_hold (set_soprano_rhythm engineInit 4) rngHalf
    (Or.inl (by decide)) (by decide) 1 (by decide) (by decide) (by decide)

/-- The sub-step loop preserves a non-null previous bass. -/
theorem subSteps_state_bass (ctx : Ctx) :
    ∀ (count i : ℕ) (st : InnerSt), st.prev_bass.isSome = true →
      (((subSteps ctx i count st).2).prev_bass).isSome = true := by
  intro count
  induction count with
  | zero => intro i st h; exact h
  | succ c ih =>
    intro i st h
    simp only [subSteps]
    refine ih (i + 1) (emit ctx st i).2 ?_
    rw [emit_prev_bass]
    exact emit_bass_isSome _ _ _ h

/-- C10: the previous-bass state is initialized to 48, every bass entry
of every generated bundle is non-null whenever the engine enters the
tick with a non-null previous bass (quarter-beat sub-steps assign a
freshly selected integer pitch and the remaining sub-steps hold the
previous non-null value), and the non-null previous bass is preserved
across ticks, so from the initial engine the null case admitted by the
payload schema never occurs. -/
theorem c10_bass_never_null :
    engineInit.prev_bass = some 48
  ∧ (∀ (e : Engine) (rng : RngT) (j : ℕ) (x : Option ℤ),
      e.prev_bass.isSome = true →
      (generate_one_second_bundle e rng).1.bass_bundle.get? j = some x →
      x.isSome = true)
  ∧ (∀ (e : Engine) (rng : RngT),
      e.prev_bass.isSome = true →
      (((generate_one_second_bundle e rng).2.1).prev_bass).isSome = true) := by
  refine ⟨rfl, ?_, ?_⟩
  · intro e rng j x he hx
    obtain ⟨a2, b2, hE⟩ := gate_phase_shape e (current_regime e) rng
    simp only [generate_one_second_bundle] at hx
    rw [hE] at hx
    refine run_bass_isSome _ _ _ j x ?_ hx
    show e.prev_bass.isSome = true
    exact he
  · intro e rng he
    obtain ⟨a2, b2, hE⟩ := gate_phase_shape e (current_regime e) rng
    simp only [generate_one_second_bundle]
    rw [hE]
    refine subSteps_state_bass _ _ 0 _ ?_
    show e.prev_bass.isSome = true
    exact he

/-- Witness for C10 at sub-step 0 of the first bundle of the fresh
engine. -/
theorem c10_witness : (some (50 : ℤ)).isSome = true :=
  c10_bass_never_null.2.1 engineInit rngHalf 0 (some 50) (by decide) (by decide)
